import Mathlib

/-!
# Verification of the RAG news backend core

A shallow embedding, in Lean 4, of the core pipeline of the
NAYANKUMAR21/RAG-news-app-backend repository:

* `ChunkerService` (backend/src/services/chunkerService.js),
* `JinaEmbeddingService` (backend/src/services/embeddingService.js),
* `QdrantVectorStore` (backend/src/services/vectorStoreService.js),
* `RAGService` (backend/src/services/ragService.js),
* `RedisCacheService` (backend/src/services/cacheService.js),
* `ChatController` (backend/src/controllers/chatController.js),

together with theorems settling the spec's claims about them.

JavaScript strings are modelled as `List Char`, numbers used as indices as
`Int`/`Nat`, floats (embedding coordinates, similarity scores) as `ℚ`, and
every external provider (embedding API, Qdrant, Gemini, Redis) as an explicit
oracle or an explicit state, per the boundary contracts of the spec.
-/

namespace RAGNews

/-! ## JavaScript string primitives

`String.prototype.lastIndexOf(pat, fromIndex)` returns the largest start
position `k ≤ fromIndex` at which `pat` occurs in the string, and `-1` if
there is none.  `String.prototype.substring(a, b)` clamps its arguments into
`[0, length]`, swaps them when `a > b`, and returns the text between them. -/

/-- Largest `k ≤ bound` with `pat` occurring at `k` in `s`, scanning downward. -/
def lastOccurAux (pat s : List Char) : Nat → Option Nat
  | 0 => if pat.isPrefixOf s then some 0 else none
  | k + 1 =>
    if pat.isPrefixOf (s.drop (k + 1)) then some (k + 1)
    else lastOccurAux pat s k

/-- JS `s.lastIndexOf(pat, fromIndex)` (result `-1` encoded as `Int`). -/
def jsLastIndexOf (pat s : List Char) (fromIndex : Nat) : Int :=
  match lastOccurAux pat s (min fromIndex s.length) with
  | some k => (k : Int)
  | none => -1

/-- JS `s.substring(a, b)`: clamp both arguments into `[0, s.length]`,
swap when out of order, return the characters in between. -/
def jsSubstring (s : List Char) (a b : Int) : List Char :=
  let a' := min (a.toNat) s.length
  let b' := min (b.toNat) s.length
  (s.take (max a' b')).drop (min a' b')

/-! ## ChunkerService (backend/src/services/chunkerService.js) -/

/-- The three numeric fields set by `ChunkerService`'s constructor
(`maxChunkSize`, `overlap`, `minChunkSize`). -/
structure ChunkerConfig where
  maxChunkSize : Nat
  overlap : Nat
  minChunkSize : Nat
deriving Repr, DecidableEq

/-- Constructor defaults: `{ maxChunkSize: 1000, overlap: 100, minChunkSize: 100 }`. -/
def ChunkerConfig.default : ChunkerConfig := ⟨1000, 100, 100⟩

/-- One iteration of the `while (startIndex < text.length)` loop of
`ChunkerService.chunkText`.  The state is the pair
`(startIndex, chunks-so-far)`; `startIndex` is an `Int` because
`endIndex - this.overlap` can be negative in JS. -/
def chunkStep (cfg : ChunkerConfig) (text : List Char) :
    Int × List (List Char) → Int × List (List Char)
  | (startIndex, chunks) =>
    let endIndex0 : Int := startIndex + (cfg.maxChunkSize : Int)
    -- if we're not at the end of the text, pull the boundary back to a
    -- paragraph / sentence / word break when one is close enough
    let endIndex : Int :=
      if endIndex0 < (text.length : Int) then
        let paragraphBreak := jsLastIndexOf ['\n', '\n'] text endIndex0.toNat
        let sentenceBreak := jsLastIndexOf ['.', ' '] text endIndex0.toNat
        let wordBreak := jsLastIndexOf [' '] text endIndex0.toNat
        if paragraphBreak > startIndex ∧ paragraphBreak > endIndex0 - 200 then
          paragraphBreak + 2
        else if sentenceBreak > startIndex ∧ sentenceBreak > endIndex0 - 100 then
          sentenceBreak + 2
        else if wordBreak > startIndex then
          wordBreak + 1
        else endIndex0
      else endIndex0
    let chunk := jsSubstring text startIndex endIndex
    -- only add if the chunk is not too small
    let chunks' := if cfg.minChunkSize ≤ chunk.length then chunks ++ [chunk] else chunks
    -- startIndex = endIndex - this.overlap, then the (broken) progress guard
    let nextStart : Int := endIndex - (cfg.overlap : Int)
    let nextStart' : Int :=
      if nextStart ≤ 0 ∨ nextStart ≤ (chunks'.length : Int) - 1 then endIndex
      else nextStart
    (nextStart', chunks')

/-- The chunking loop, with explicit fuel since the source loop need not
terminate; `none` means the fuel ran out. -/
def chunkLoop (cfg : ChunkerConfig) (text : List Char) :
    Nat → Int × List (List Char) → Option (List (List Char))
  | 0, _ => none
  | fuel + 1, st =>
    if st.1 < (text.length : Int) then
      chunkLoop cfg text fuel (chunkStep cfg text st)
    else some st.2

/-- `ChunkerService.chunkText(text)`, fuelled. -/
def chunkText (cfg : ChunkerConfig) (text : List Char) (fuel : Nat) :
    Option (List (List Char)) :=
  if text.length ≤ cfg.maxChunkSize then some [text]
  else chunkLoop cfg text fuel (0, [])

/-! ## JavaScript objects as key/value lists

Chunk metadata and Qdrant payloads are JS objects built by object-literal
spreads.  We model an object as a `List (String × MetaVal)` whose keys are
unique; a spread writes each of the source's entries in order with
`objSet`, which overwrites the value of an existing key in place (JS keeps
the original key position) and appends a fresh key at the end.  Reading is
`List.lookup`. -/

/-- A JS primitive value stored in metadata / payloads. -/
inductive MetaVal where
  | str (s : String)
  | num (n : Int)
deriving Repr, DecidableEq

/-- Write one key of a JS object (and of a Redis keyspace): overwrite in
place, or append. -/
def objSet [DecidableEq κ] (m : List (κ × β)) (k : κ) (v : β) : List (κ × β) :=
  if (m.lookup k).isSome then
    m.map (fun p => if p.1 = k then (k, v) else p)
  else m ++ [(k, v)]

/-- Spread a (possibly duplicated-key) entry list onto an object, as the JS
`{ ...base, ...src }` would: later writes win. -/
def objSpread (base src : List (String × MetaVal)) : List (String × MetaVal) :=
  src.foldl (fun m p => objSet m p.1 p.2) base

/-- The value a JS spread of `src` contributes at key `k`: the last entry
with that key, if any. -/
def lastVal (src : List (String × MetaVal)) (k : String) : Option MetaVal :=
  src.reverse.lookup k

/-! ## `ChunkerService.processDocuments` -/

/-- The document objects handed to `processDocuments` (articles).  The JS
fields `id`, `title`, `content`, `text`, `source` may each be absent or the
empty string, both falsy; `none` models absent. -/
structure JsDoc where
  id : Option String
  title : Option String
  content : Option String
  textField : Option String
  source : Option String
  metadata : List (String × MetaVal)
deriving Repr, DecidableEq

/-- JS `a || b` on an optional string: falsy (absent or `""`) falls through. -/
def jsOrStr (a : Option String) (b : String) : String :=
  match a with
  | some s => if s = "" then b else s
  | none => b

/-- A chunk produced by `processDocuments`. -/
structure Chunk where
  text : List Char
  metadata : List (String × MetaVal)
deriving Repr, DecidableEq

/-- The metadata object literal built inside `processDocuments`:
`{ docId, docTitle, chunkIndex, totalChunks, source, ...doc.metadata }`.
The spread of `doc.metadata` comes last, so its entries overwrite the
computed fields on key collision. -/
def mkChunkMeta (doc : JsDoc) (docIndex chunkIndex totalChunks : Nat) :
    List (String × MetaVal) :=
  objSpread
    [("docId", .str (jsOrStr doc.id (toString docIndex))),
     ("docTitle", .str (jsOrStr doc.title ("Document " ++ toString docIndex))),
     ("chunkIndex", .num chunkIndex),
     ("totalChunks", .num totalChunks),
     ("source", .str (jsOrStr doc.source "unknown"))]
    doc.metadata

/-- `ChunkerService.processDocuments(documents)`, fuelled through
`chunkText`; `none` propagates a diverging chunker. -/
def processDocuments (cfg : ChunkerConfig) (docs : List JsDoc) (fuel : Nat) :
    Option (List Chunk) :=
  (docs.enum.mapM (fun (p : Nat × JsDoc) =>
    (chunkText cfg (jsOrStr p.2.content (jsOrStr p.2.textField "")).toList fuel).map
      (fun docChunks =>
        docChunks.enum.map (fun (q : Nat × List Char) =>
          ⟨q.2, mkChunkMeta p.2 p.1 q.1 docChunks.length⟩)))).map
    List.flatten

/-! ## JinaEmbeddingService (backend/src/services/embeddingService.js)

The Jina HTTP API is an external collaborator; we model it as a pair of
oracles, one for the whole-batch call made inside `embedBatch` and one for
the single-text call made by `embedText`.  `none` models a rejected
request.  Floats are modelled as `ℚ`. -/

/-- An embedding vector. -/
abbrev Vec := List ℚ

/-- Numeric fields of `JinaEmbeddingService`'s constructor:
`batchSize` (default 20, and never 0 since `config.batchSize || 20`
replaces the falsy 0), `dimension` (default 768), `maxTokens`
(default 1000); `approximateCharsPerToken` is the constant 4. -/
structure EmbedConfig where
  batchSize : Nat
  dimension : Nat
  maxTokens : Nat
deriving Repr, DecidableEq

/-- Constructor defaults. -/
def EmbedConfig.default : EmbedConfig := ⟨20, 768, 1000⟩

/-- The external embedding provider's observable behaviour. -/
structure EmbedProvider where
  batchCall : List (List Char) → Option (List Vec)
  singleCall : List Char → Option Vec

/-- `new Array(this.dimension).fill(0)` — the placeholder pushed for a text
whose embedding could not be obtained. -/
def zeroVec (dimension : Nat) : Vec := List.replicate dimension 0

/-- `JinaEmbeddingService._truncateText(text)`. -/
def truncateText (cfg : EmbedConfig) (text : List Char) : List Char :=
  let maxChars := cfg.maxTokens * 4
  if maxChars < text.length then text.take maxChars else text

/-- `JinaEmbeddingService.embedText(text)`: truncate, call the provider,
wrap a provider failure in an error. -/
def embedText (cfg : EmbedConfig) (p : EmbedProvider) (text : List Char) :
    Except String Vec :=
  match p.singleCall (truncateText cfg text) with
  | some e => .ok e
  | none => .error "Failed to generate embedding"

/-- The `for (let i = 0; i < truncatedTexts.length; i += this.batchSize)`
loop of `embedBatch`, processing the still-unprocessed suffix `l` of the
(already truncated) texts.  On a failed batch call, a multi-member batch
falls back to per-text `embedText` calls (which truncate again — a no-op
here) with failures replaced by zero vectors; a single-member batch
re-throws.  Fuel is structural; callers pass `l.length`, which suffices
because `batchSize ≥ 1` (the constructor's `|| 20` rules out 0). -/
def embedGo (cfg : EmbedConfig) (p : EmbedProvider) :
    Nat → List (List Char) → Except String (List Vec)
  | _, [] => .ok []
  | 0, _ :: _ => .ok []
  | fuel + 1, t :: ts =>
    let batch := (t :: ts).take cfg.batchSize
    let rest := (t :: ts).drop cfg.batchSize
    match p.batchCall batch with
    | some batchEmbeddings =>
      (embedGo cfg p fuel rest).map (fun es => batchEmbeddings ++ es)
    | none =>
      if 1 < batch.length then
        let fallback := batch.map (fun text =>
          match p.singleCall (truncateText cfg text) with
          | some e => e
          | none => zeroVec cfg.dimension)
        (embedGo cfg p fuel rest).map (fun es => fallback ++ es)
      else .error "Failed to generate batch embeddings"

/-- `JinaEmbeddingService.embedBatch(texts)`: truncate everything first,
then process in batches of `batchSize`. -/
def embedBatch (cfg : EmbedConfig) (p : EmbedProvider) (texts : List (List Char)) :
    Except String (List Vec) :=
  let truncatedTexts := texts.map (truncateText cfg)
  embedGo cfg p truncatedTexts.length truncatedTexts

/-- Split a list into consecutive groups of `n` (the batches `embedBatch`
issues).  Fuel is structural; `chunksOf` passes the list's length, which
suffices for `n ≥ 1`. -/
def chunksOfGo (n : Nat) : Nat → List α → List (List α)
  | _, [] => []
  | 0, _ :: _ => []
  | fuel + 1, x :: xs => ((x :: xs).take n) :: chunksOfGo n fuel ((x :: xs).drop n)

/-- The consecutive batches of size `n` of `l`. -/
def chunksOf (n : Nat) (l : List α) : List (List α) := chunksOfGo n l.length l

/-- What one batch contributes to `embedBatch`'s output when no error
escapes: the provider's embeddings on batch success, otherwise the
per-text fallback with zero-vector placeholders. -/
def groupResult (cfg : EmbedConfig) (p : EmbedProvider) (g : List (List Char)) :
    List Vec :=
  match p.batchCall g with
  | some es => es
  | none => g.map (fun text =>
      match p.singleCall (truncateText cfg text) with
      | some e => e
      | none => zeroVec cfg.dimension)

/-- Spec-level description of `embedBatch`'s successful output: the batch
contributions, in batch order, concatenated. -/
def specEmbed (cfg : EmbedConfig) (p : EmbedProvider) (texts : List (List Char)) :
    List Vec :=
  ((chunksOf cfg.batchSize (texts.map (truncateText cfg))).map
    (groupResult cfg p)).flatten

/-! ## QdrantVectorStore (backend/src/services/vectorStoreService.js)

Qdrant is an external collaborator.  Its point store is modelled as the
list of upserted points, and its similarity scoring (cosine) as an opaque
function `score : Vec → Vec → ℚ` supplied by a `QdrantModel`; its `search`
endpoint is modelled per the boundary contract: optionally threshold,
order by descending score, truncate to `limit`. -/

/-- A point as upserted into Qdrant: id, vector, payload. -/
structure QPoint where
  id : String
  vector : Vec
  payload : List (String × MetaVal)
deriving DecidableEq

/-- The observable behaviour of the external Qdrant instance. -/
structure QdrantModel where
  score : Vec → Vec → ℚ

/-- A search hit: payload plus score (`with_vectors: false`, so no vector). -/
structure QHit where
  payload : List (String × MetaVal)
  score : ℚ
deriving DecidableEq

/-- Descending-score order on points relative to a query vector. -/
def scoreRel (qm : QdrantModel) (q : Vec) (a b : QPoint) : Prop :=
  qm.score q b.vector ≤ qm.score q a.vector

instance (qm : QdrantModel) (q : Vec) : DecidableRel (scoreRel qm q) :=
  fun _a _b => inferInstanceAs (Decidable (_ ≤ _))

/-- The external `client.search` endpoint: apply `score_threshold` when the
caller provides one, rank by descending score, return at most `limit` hits. -/
def qdrantSearch (qm : QdrantModel) (points : List QPoint) (queryVector : Vec)
    (limit : Nat) (scoreThreshold : Option ℚ) : List QHit :=
  let cands := match scoreThreshold with
    | some t => points.filter (fun (pt : QPoint) => t ≤ qm.score queryVector pt.vector)
    | none => points
  ((cands.insertionSort (scoreRel qm queryVector)).take limit).map
    (fun (pt : QPoint) => ⟨pt.payload, qm.score queryVector pt.vector⟩)

/-- The document objects passed to `addDocuments`.  (The combined objects
`RAGService.ingestArticles` builds also carry an `embedding` field, but
`addDocuments` never reads it — it reads only its separate `embeddings`
parameter — so the model omits it.) -/
structure VSDoc where
  text : String
  metadata : List (String × MetaVal)
deriving DecidableEq

/-- The points built inside `addDocuments`:
`{ id: `${Date.now()}-${i}`, vector: embeddings[i], payload: { text: doc.text, ...doc.metadata } }`. -/
def mkPoints (documents : List VSDoc) (embeddings : List Vec) (now : Nat) :
    List QPoint :=
  documents.enum.map (fun (p : Nat × VSDoc) =>
    ⟨toString now ++ "-" ++ toString p.1,
     embeddings.getD p.1 [],
     objSpread [("text", .str p.2.text)] p.2.metadata⟩)

/-- `QdrantVectorStore.addDocuments(documents, embeddings)`.  The
`embeddings` parameter is `Option`al because the repository's only caller
passes a single argument, leaving it `undefined`; accessing
`embeddings.length` then throws, which the catch block wraps.  The only
validation performed is the count comparison — vector dimensions are not
checked against the configured dimension. -/
def addDocuments (store : List QPoint) (documents : List VSDoc)
    (embeddings : Option (List Vec)) (now : Nat) : Except String (List QPoint) :=
  match embeddings with
  | none =>
    .error "Qdrant document insertion failed: Cannot read properties of undefined (reading \x27length\x27)"
  | some es =>
    if documents.length ≠ es.length then
      .error "Qdrant document insertion failed: Documents and embeddings count mismatch"
    else
      .ok (store ++ mkPoints documents es now)

/-- One retrieved document as shaped by `similaritySearch`'s result map:
`text` and four fixed metadata fields read off the payload (absent keys
give JS `undefined`, modelled as `none`). -/
structure RetrievedDoc where
  text : Option MetaVal
  title : Option MetaVal
  source : Option MetaVal
  url : Option MetaVal
  date : Option MetaVal
  score : ℚ
deriving DecidableEq

/-- `QdrantVectorStore.similaritySearch(queryEmbedding, limit = 5)`.  The
declared parameter list has no score-threshold parameter, and the
`client.search` request body sends none. -/
def similaritySearch (qm : QdrantModel) (store : List QPoint)
    (queryEmbedding : Vec) (limit : Nat) : List RetrievedDoc :=
  (qdrantSearch qm store queryEmbedding limit none).map (fun hit =>
    ⟨hit.payload.lookup "text", hit.payload.lookup "title",
     hit.payload.lookup "source", hit.payload.lookup "url",
     hit.payload.lookup "date", hit.score⟩)

/-! ## RAGService (backend/src/services/ragService.js) -/

/-- The chunker configuration `RAGService` constructs:
`{ maxChunkSize: 6000, overlap: 200 }` (minChunkSize left to default 100). -/
def ragChunkerConfig : ChunkerConfig := ⟨6000, 200, 100⟩

/-- The fixed string literal that `ingestArticles` passes to
`embedBatch([...])` for every chunk, in place of the chunk's text. -/
def hardcodedEmbedInput : String :=
  "quia et suscipit\nsuscipit recusandae consequuntur expedita et cum\nreprehenderit molestiae ut ut quas totam\nnostrum rerum est autem sunt rem eveniet architecto\n\nIn conclusion, while sunt aut facere repellat provident occaecati excepturi optio reprehenderit presents significant opportunities, it also raises important questions that will need to be addressed as development continues. The conversation around this topic is likely to evolve as we gain more experience and data.\n\nFrom a policy perspective, there are important considerations regarding regulation, standardization, and oversight. Finding the right balance between enabling innovation and ensuring safety and fairness presents an ongoing challenge.\n\nThe economic implications cannot be overlooked. Initial investment costs must be weighed against long-term benefits, and the distribution of these costs and benefits across different stakeholders requires careful analysis.\n\nIndustry leaders have expressed varying opinions on this matter. Some see it as a revolutionary change that will transform established practices, while others view it as an incremental improvement on existing systems.\n\nLooking ahead, we can anticipate several possible trajectories for how this might evolve. Optimistic scenarios suggest rapid adoption and integration, while more conservative outlooks predict a slower, more measured approach.\n\nUser experience is another critical dimension to consider. How will this affect the average person? Will it simplify processes or add additional complexity? These questions remain central to the discussion.\n\nThe technical aspects of this topic warrant careful consideration. While the fundamental principles are relatively straightforward, the implementation details can become quite complex, especially when scaling to real-world scenarios.\n\nWhen examining sunt aut facere repellat provident occaecati excepturi optio reprehenderit, it\x27s important to consider the historical context. Previous developments in this area have shown mixed results, with some initial excitement followed by periods of reassessment and critical evaluation."

/-- `Promise.all` over already-settled results: the first rejection rejects
the whole batch, otherwise all values are collected in order. -/
def promiseAll : List (Except String α) → Except String (List α)
  | [] => .ok []
  | .error e :: _ => .error e
  | .ok a :: rest => (promiseAll rest).map (fun as => a :: as)

/-- `RAGService.ingestArticles({ articles })`.  Two deviations of the source
from the spec are reproduced faithfully here:
1. each chunk's "embedding" is the result of `embedBatch` applied to the one
   fixed `hardcodedEmbedInput` string (the call on the chunk texts is
   commented out in the source), wrapped in a one-request-per-chunk
   `Promise.all`;
2. `this.vectorStore.addDocuments(...)` is invoked with a single combined
   array, so `addDocuments`'s `embeddings` parameter is `undefined`
   (`none`).
The outer catch wraps any error as `Failed to ingest articles: ...`.
`none` (outermost) propagates a diverging chunker. -/
def ingestArticles (ecfg : EmbedConfig) (p : EmbedProvider)
    (store : List QPoint) (articles : List JsDoc) (now : Nat) (fuel : Nat) :
    Option (Except String (List QPoint)) :=
  match processDocuments ragChunkerConfig articles fuel with
  | none => none
  | some chunks =>
    let texts := chunks.map Chunk.text
    let perChunk := texts.map (fun _ =>
      embedBatch ecfg p [hardcodedEmbedInput.toList])
    match promiseAll perChunk with
    | .error e => some (.error ("Failed to ingest articles: " ++ e))
    | .ok _embeddings =>
      match addDocuments store
          (chunks.map (fun c => ⟨String.mk c.text, c.metadata⟩)) none now with
      | .error e => some (.error ("Failed to ingest articles: " ++ e))
      | .ok store' => some (.ok store')

/-- `RAGService.query(query, { topK = 5, threshold = 0.7 })`.  The source
passes `threshold` as a third argument to `similaritySearch`, whose
parameter list has only `(queryEmbedding, limit)` — JavaScript silently
drops the extra argument, so the threshold never reaches the search. -/
def ragQuery (ecfg : EmbedConfig) (p : EmbedProvider) (qm : QdrantModel)
    (store : List QPoint) (query : List Char) (topK : Nat) (threshold : ℚ) :
    Except String (List RetrievedDoc) :=
  match embedText ecfg p query with
  | .error e => .error ("Failed to query RAG system: " ++ e)
  | .ok queryEmbedding =>
    let _unusedThreshold := threshold
    .ok (similaritySearch qm store queryEmbedding topK)

/-! ## RedisCacheService (backend/src/services/cacheService.js)

Redis is modelled as two association lists, one for the `session:` keys and
one for the `query:` keys (the two prefixes keep the real keyspaces
disjoint, and `Buffer.from(query).toString("base64")` is injective, so the
raw query string serves as the key).  TTL expiry is modelled as absence of
the key; a backing-store failure is out of the model (every claim below is
about turns whose cache operations reach Redis). -/

/-- One entry of an assistant message's `sources` array:
`{ title, source, url }` copied off a retrieved document's metadata. -/
structure SourceRef where
  title : Option MetaVal
  source : Option MetaVal
  url : Option MetaVal
deriving DecidableEq, Repr

/-- Chat roles. -/
inductive Role where
  | user
  | assistant
deriving DecidableEq, Repr

/-- A chat message as stored in a session's history. -/
structure ChatMessage where
  role : Role
  content : String
  sources : Option (List SourceRef)
  timestamp : String
deriving DecidableEq, Repr

/-- A cached query result: `{ response, sources }`. -/
structure CachedResult where
  response : String
  sources : List SourceRef
deriving DecidableEq, Repr

/-- The Redis contents visible to this backend. -/
structure CacheState where
  sessions : List (String × List ChatMessage)
  queries : List (String × CachedResult)
deriving DecidableEq, Repr

/-- `RedisCacheService.storeChatSession(sessionId, messages)`. -/
def storeChatSession (sessionId : String) (messages : List ChatMessage)
    (st : CacheState) : CacheState :=
  { st with sessions := objSet st.sessions sessionId messages }

/-- `RedisCacheService.getChatSession(sessionId)`.  A present key is
returned even when it holds the empty array: the JS guard `if (!data)`
tests the JSON string `"[]"`, which is truthy. -/
def getChatSession (sessionId : String) (st : CacheState) :
    Option (List ChatMessage) :=
  st.sessions.lookup sessionId

/-- `RedisCacheService.deleteChatSession(sessionId)`. -/
def deleteChatSession (sessionId : String) (st : CacheState) : CacheState :=
  { st with sessions := st.sessions.filter (fun p => p.1 ≠ sessionId) }

/-- `RedisCacheService.cacheQueryResult(query, result)`. -/
def cacheQueryResult (query : String) (result : CachedResult)
    (st : CacheState) : CacheState :=
  { st with queries := objSet st.queries query result }

/-- `RedisCacheService.getCachedQueryResult(query)`. -/
def getCachedQueryResult (query : String) (st : CacheState) :
    Option CachedResult :=
  st.queries.lookup query

/-! ## ChatController (backend/src/controllers/chatController.js)

The controller's collaborators (embedding service, vector store, LLM) are
dependency-injected; they are modelled as oracles in a `ChatEnv`, with
`none` standing for a thrown provider error.  `now` is the value of
`new Date().toISOString()` during the turn.  Each handler returns its
outcome, the updated Redis state, and the trace of provider calls it made
(cache reads/writes are not provider calls).  The optional
`persistenceService` is absent (`app.js` constructs the controller without
one), so the fire-and-forget SQL writes are omitted. -/

/-- Oracles for the controller's injected collaborators. -/
structure ChatEnv where
  embedQuery : String → Option Vec
  search : Vec → Nat → Option (List RetrievedDoc)
  generate : String → List RetrievedDoc → List ChatMessage → Option String
  generateStream : String → List RetrievedDoc → List ChatMessage → Option (List String)
  now : String

/-- The provider calls a turn can make, in order. -/
inductive ProviderCall where
  | embedQuery
  | vectorSearch
  | generate
  | generateStream
deriving DecidableEq, Repr

/-- `{ title: doc.metadata.title, source: doc.metadata.source, url: doc.metadata.url }`. -/
def mkSourceRef (d : RetrievedDoc) : SourceRef := ⟨d.title, d.source, d.url⟩

/-- Outcome of `sendMessage`: 400, 200 (with the assistant message and the
`cached` flag — absent in the miss-path JSON, hence `false`), or 500. -/
inductive SendOutcome where
  | badRequest
  | ok (response : ChatMessage) (cached : Bool)
  | serverError
deriving DecidableEq, Repr

/-- `ChatController.sendMessage(req, res)`. -/
def sendMessage (env : ChatEnv) (sessionId message : String) (st : CacheState) :
    SendOutcome × CacheState × List ProviderCall :=
  if sessionId = "" ∨ message = "" then (.badRequest, st, [])
  else
    let history := (getChatSession sessionId st).getD []
    let userMessage : ChatMessage := ⟨.user, message, none, env.now⟩
    let history1 := history ++ [userMessage]
    match getCachedQueryResult message st with
    | some cachedResult =>
      let botMessage : ChatMessage :=
        ⟨.assistant, cachedResult.response, some cachedResult.sources, env.now⟩
      let st1 := storeChatSession sessionId (history1 ++ [botMessage]) st
      (.ok botMessage true, st1, [])
    | none =>
      match env.embedQuery message with
      | none => (.serverError, st, [.embedQuery])
      | some queryEmbedding =>
        match env.search queryEmbedding 5 with
        | none => (.serverError, st, [.embedQuery, .vectorSearch])
        | some relevantDocs =>
          match env.generate message relevantDocs history1 with
          | none => (.serverError, st, [.embedQuery, .vectorSearch, .generate])
          | some response =>
            let sources := relevantDocs.map mkSourceRef
            let botMessage : ChatMessage :=
              ⟨.assistant, response, some sources, env.now⟩
            let st1 := storeChatSession sessionId (history1 ++ [botMessage]) st
            let st2 := cacheQueryResult message ⟨response, sources⟩ st1
            (.ok botMessage false, st2, [.embedQuery, .vectorSearch, .generate])

/-- One server-sent event of the streaming endpoint. -/
inductive StreamEvent where
  | start
  | sources (ss : List SourceRef)
  | chunk (content : String)
  | done
  | errorEvent
deriving DecidableEq, Repr

/-- Outcome of `streamMessage`: a 400, or the SSE event sequence written. -/
inductive StreamOutcome where
  | badRequest
  | events (evs : List StreamEvent)
deriving DecidableEq, Repr

/-- `ChatController.streamMessage(req, res)`.  The user message is stored
before retrieval; the assistant message (the concatenation of the yielded
fragments — the generator skips falsy, i.e. empty, fragment texts) is
stored after the stream completes.  A provider failure lands in the catch
block, which emits a terminal `error` event. -/
def streamMessage (env : ChatEnv) (sessionId message : String) (st : CacheState) :
    StreamOutcome × CacheState × List ProviderCall :=
  if sessionId = "" ∨ message = "" then (.badRequest, st, [])
  else
    let history := (getChatSession sessionId st).getD []
    let userMessage : ChatMessage := ⟨.user, message, none, env.now⟩
    let history1 := history ++ [userMessage]
    let st1 := storeChatSession sessionId history1 st
    match env.embedQuery message with
    | none => (.events [.errorEvent], st1, [.embedQuery])
    | some queryEmbedding =>
      match env.search queryEmbedding 5 with
      | none => (.events [.errorEvent], st1, [.embedQuery, .vectorSearch])
      | some relevantDocs =>
        let srcs := relevantDocs.map mkSourceRef
        match env.generateStream message relevantDocs history1 with
        | none =>
          (.events [.start, .sources srcs, .errorEvent], st1,
           [.embedQuery, .vectorSearch, .generateStream])
        | some fragments =>
          let yielded := fragments.filter (fun c => c ≠ "")
          let fullResponse := String.join yielded
          let botMessage : ChatMessage :=
            ⟨.assistant, fullResponse, some srcs, env.now⟩
          let st2 := storeChatSession sessionId (history1 ++ [botMessage]) st1
          let st3 := cacheQueryResult message ⟨fullResponse, srcs⟩ st2
          (.events ([.start, .sources srcs] ++ yielded.map .chunk ++ [.done]),
           st3, [.embedQuery, .vectorSearch, .generateStream])

/-- Outcome of `getSessionHistory`: 400, 404, or 200 with the history. -/
inductive HistOutcome where
  | badRequest
  | notFound
  | ok (history : List ChatMessage)
deriving DecidableEq, Repr

/-- `ChatController.getSessionHistory(req, res)`.  The 404 fires on a JS
falsy history, i.e. a missing key (`null`); a stored empty array is truthy
and yields a 200. -/
def getSessionHistory (sessionId : String) (st : CacheState) : HistOutcome :=
  if sessionId = "" then .badRequest
  else
    match getChatSession sessionId st with
    | none => .notFound
    | some history => .ok history

/-- Outcome of `clearSession`. -/
inductive ClearOutcome where
  | badRequest
  | cleared
deriving DecidableEq, Repr

/-- `ChatController.clearSession(req, res)`: delete the key, then store an
empty session under the same key. -/
def clearSession (sessionId : String) (st : CacheState) :
    ClearOutcome × CacheState :=
  if sessionId = "" then (.badRequest, st)
  else
    let st1 := deleteChatSession sessionId st
    let st2 := storeChatSession sessionId [] st1
    (.cleared, st2)

/-- `ChatController.createSession(req, res)`: the fresh uuid is a
parameter; an empty session is stored under it. -/
def createSession (newSessionId : String) (st : CacheState) :
    String × CacheState :=
  (newSessionId, storeChatSession newSessionId [] st)

/-! ## Association-list lemmas -/

theorem lookup_cons' [DecidableEq κ] (a k : κ) (b : β) (es : List (κ × β)) :
    List.lookup a ((k, b) :: es) = if a = k then some b else List.lookup a es := by
  by_cases h : a = k
  · subst h; simp [List.lookup]
  · simp [List.lookup, beq_eq_false_iff_ne.mpr h, h]

theorem lookup_append' [DecidableEq κ] (k : κ) (t s : List (κ × β)) :
    List.lookup k (t ++ s) =
      match List.lookup k t with
      | some v => some v
      | none => List.lookup k s := by
  induction t with
  | nil => simp
  | cons p t ih =>
    rcases p with ⟨a, b⟩
    by_cases h : k = a
    · subst h; simp [lookup_cons']
    · simp [lookup_cons', h, ih]

theorem lookup_map_overwrite [DecidableEq κ] (m : List (κ × β)) (k : κ) (v : β)
    (h : (m.lookup k).isSome) :
    (m.map (fun p => if p.1 = k then (k, v) else p)).lookup k = some v := by
  induction m with
  | nil => simp [List.lookup] at h
  | cons p m ih =>
    rcases p with ⟨a, b⟩
    by_cases ha : a = k
    · subst ha
      simp [lookup_cons']
    · rw [lookup_cons', if_neg (Ne.symm ha)] at h
      simpa [ha, lookup_cons', Ne.symm ha] using ih h

theorem lookup_map_preserve [DecidableEq κ] (m : List (κ × β)) (k k' : κ) (v : β)
    (hne : k ≠ k') :
    (m.map (fun p => if p.1 = k' then (k', v) else p)).lookup k = m.lookup k := by
  induction m with
  | nil => simp
  | cons p m ih =>
    rcases p with ⟨a, b⟩
    by_cases ha : a = k'
    · subst ha
      simp [lookup_cons', hne, ih]
    · by_cases hak : k = a
      · subst hak
        simp [ha, lookup_cons']
      · simp [ha, lookup_cons', hak, ih]

theorem lookup_objSet_self [DecidableEq κ] (m : List (κ × β)) (k : κ) (v : β) :
    (objSet m k v).lookup k = some v := by
  unfold objSet
  by_cases h : (m.lookup k).isSome
  · simpa [h] using lookup_map_overwrite m k v h
  · rw [Option.not_isSome_iff_eq_none] at h
    simp [h, lookup_append', lookup_cons', Option.isSome]

theorem lookup_objSet_ne [DecidableEq κ] (m : List (κ × β)) (k k' : κ) (v : β)
    (hne : k ≠ k') :
    (objSet m k' v).lookup k = m.lookup k := by
  unfold objSet
  by_cases h : (m.lookup k').isSome
  · simpa [h] using lookup_map_preserve m k k' v hne
  · rw [if_neg h, lookup_append']
    cases hm : m.lookup k with
    | none => simp [lookup_cons', hne]
    | some v' => simp

theorem lastVal_cons (a : String) (b : MetaVal) (src : List (String × MetaVal))
    (k : String) :
    lastVal ((a, b) :: src) k =
      match lastVal src k with
      | some v => some v
      | none => if k = a then some b else none := by
  unfold lastVal
  rw [List.reverse_cons, lookup_append']
  cases hv : src.reverse.lookup k with
  | none => simp [lookup_cons']
  | some v => simp

/-- The key fact about JS spreads: the result's value at `k` is the
source's last write at `k` when there is one, else the base's value. -/
theorem lookup_objSpread (base src : List (String × MetaVal)) (k : String) :
    (objSpread base src).lookup k =
      match lastVal src k with
      | some v => some v
      | none => base.lookup k := by
  induction src generalizing base with
  | nil => simp [objSpread, lastVal]
  | cons p src ih =>
    rcases p with ⟨a, b⟩
    rw [objSpread, List.foldl_cons]
    have step : (objSpread (objSet base a b) src).lookup k =
        match lastVal src k with
        | some v => some v
        | none => (objSet base a b).lookup k := ih (objSet base a b)
    rw [show List.foldl (fun m p => objSet m p.1 p.2) (objSet base a b) src =
          objSpread (objSet base a b) src from rfl]
    rw [step, lastVal_cons]
    cases hv : lastVal src k with
    | some v => simp
    | none =>
      by_cases hka : k = a
      · subst hka
        simp [lookup_objSet_self]
      · simp [hka, lookup_objSet_ne _ _ _ _ hka]

/-! ## Claim C6 — termination of `chunkText`

The source's progress guard is
`if (startIndex <= 0 || startIndex <= chunks.length - 1) startIndex = endIndex`,
which compares the text cursor against the *number of chunks collected*,
not against the previous cursor; it therefore fails to force progress.  On
the 20-character text below (a single space at index 12) with
`maxChunkSize = 10`, `overlap = 5` (and the default `minChunkSize` 100),
the loop state reaches `(8, [])` after two iterations and
`chunkStep` maps `(8, [])` to itself while `8 < 20`, so the loop never
terminates. -/

/-- A loop state that `chunkStep` fixes while the loop condition still
holds is never left: the loop runs forever (out of any fuel). -/
theorem chunkLoop_fixed (cfg : ChunkerConfig) (text : List Char)
    (st : Int × List (List Char)) (hfix : chunkStep cfg text st = st)
    (hlt : st.1 < (text.length : Int)) :
    ∀ fuel, chunkLoop cfg text fuel st = none := by
  intro fuel
  induction fuel with
  | zero => rfl
  | succ n ih =>
    show chunkLoop cfg text (n + 1) st = none
    rw [chunkLoop, if_pos hlt, hfix]
    exact ih

/-- C6: the claim states that for every text longer than `maxSize`,
`chunkText` terminates within `⌈text.length / (maxSize − overlap)⌉` loop
iterations thanks to a forced-progress rule.  The code has no such rule:
on the 20-character text `"xxxxxxxxxxxx xxxxxxx"` with
`maxChunkSize = 10` and `overlap = 5` the loop sticks at cursor 8 and
never terminates — `chunkText` returns `none` for every fuel, although the
claimed bound is `⌈20 / 5⌉ = 4` iterations. -/
theorem chunkText_c6_never_terminates :
    ∀ fuel, chunkText ⟨10, 5, 100⟩ "xxxxxxxxxxxx xxxxxxx".toList fuel = none := by
  intro fuel
  have hfix : chunkStep ⟨10, 5, 100⟩ "xxxxxxxxxxxx xxxxxxx".toList (8, []) = (8, []) := by
    decide
  have hstuck := chunkLoop_fixed ⟨10, 5, 100⟩ "xxxxxxxxxxxx xxxxxxx".toList (8, []) hfix
    (by decide)
  unfold chunkText
  rw [if_neg (by decide)]
  match fuel with
  | 0 => rfl
  | 1 => decide
  | (n + 2) =>
    rw [chunkLoop, if_pos (by decide),
      show chunkStep ⟨10, 5, 100⟩ "xxxxxxxxxxxx xxxxxxx".toList (0, []) = (5, []) from by decide,
      chunkLoop, if_pos (by decide),
      show chunkStep ⟨10, 5, 100⟩ "xxxxxxxxxxxx xxxxxxx".toList (5, []) = (8, []) from by decide]
    exact hstuck n

/-! ## Claim C3 — metadata precedence in `processDocuments`

In the object literal
`{ docId, docTitle, chunkIndex, totalChunks, source, ...doc.metadata }` the
spread of the document's own metadata comes *last*, so the document's
entries win for every colliding key — including the four reserved keys the
claim says the chunk-computed values win for. -/

theorem processDocuments_singleton (cfg : ChunkerConfig) (doc : JsDoc) (fuel : Nat)
    (docChunks : List (List Char))
    (h : chunkText cfg (jsOrStr doc.content (jsOrStr doc.textField "")).toList fuel =
      some docChunks) :
    processDocuments cfg [doc] fuel =
      some (docChunks.enum.map (fun (q : Nat × List Char) =>
        ⟨q.2, mkChunkMeta doc 0 q.1 docChunks.length⟩)) := by
  unfold processDocuments
  simp [List.enum, List.mapM.loop, h]
  exact ⟨docChunks, h, rfl⟩

theorem processDocuments_singleton_none (cfg : ChunkerConfig) (doc : JsDoc) (fuel : Nat)
    (h : chunkText cfg (jsOrStr doc.content (jsOrStr doc.textField "")).toList fuel = none) :
    processDocuments cfg [doc] fuel = none := by
  unfold processDocuments
  simp [List.enum, List.mapM.loop, h]
  exact h

/-- C3, counterexample: a document whose own metadata carries
`chunkIndex: 99` produces a single chunk (index 0 of 1) whose stored
`chunkIndex` is 99 — the document-level field overrode the chunk-computed
value for a reserved key, where the claim requires the chunk-computed 0. -/
theorem processDocuments_reserved_key_overridden :
    (processDocuments ChunkerConfig.default
        [⟨some "d1", some "T", some "hello", none, some "src",
          [("chunkIndex", .num 99)]⟩] 1).map
      (List.map (fun c => c.metadata.lookup "chunkIndex")) = some [some (.num 99)] := by
  decide

/-- C3, amended: every produced chunk's metadata takes the document's
metadata value for *every* key the document's metadata contains (the four
reserved keys included), and the chunk-computed values for `docId`,
`docTitle`, `chunkIndex`, `totalChunks` (and `source`) only for keys the
document's metadata does not contain. -/
theorem processDocuments_metadata_precedence (cfg : ChunkerConfig) (doc : JsDoc)
    (fuel : Nat) (chunks : List Chunk)
    (h : processDocuments cfg [doc] fuel = some chunks)
    (i : Nat) (hi : i < chunks.length) :
    (∀ k v, lastVal doc.metadata k = some v →
        (chunks.get ⟨i, hi⟩).metadata.lookup k = some v) ∧
    (lastVal doc.metadata "docId" = none →
        (chunks.get ⟨i, hi⟩).metadata.lookup "docId" =
          some (.str (jsOrStr doc.id "0"))) ∧
    (lastVal doc.metadata "docTitle" = none →
        (chunks.get ⟨i, hi⟩).metadata.lookup "docTitle" =
          some (.str (jsOrStr doc.title "Document 0"))) ∧
    (lastVal doc.metadata "chunkIndex" = none →
        (chunks.get ⟨i, hi⟩).metadata.lookup "chunkIndex" = some (.num i)) ∧
    (lastVal doc.metadata "totalChunks" = none →
        (chunks.get ⟨i, hi⟩).metadata.lookup "totalChunks" = some (.num chunks.length)) ∧
    (lastVal doc.metadata "source" = none →
        (chunks.get ⟨i, hi⟩).metadata.lookup "source" =
          some (.str (jsOrStr doc.source "unknown"))) := by
  cases hch : chunkText cfg (jsOrStr doc.content (jsOrStr doc.textField "")).toList fuel with
  | none =>
    rw [processDocuments_singleton_none cfg doc fuel hch] at h
    cases h
  | some docChunks =>
    rw [processDocuments_singleton cfg doc fuel docChunks hch] at h
    have hchunks : chunks = docChunks.enum.map (fun (q : Nat × List Char) =>
        (⟨q.2, mkChunkMeta doc 0 q.1 docChunks.length⟩ : Chunk)) := (Option.some.inj h).symm
    subst hchunks
    have hget : ((docChunks.enum.map (fun (q : Nat × List Char) =>
        (⟨q.2, mkChunkMeta doc 0 q.1 docChunks.length⟩ : Chunk))).get ⟨i, hi⟩).metadata =
        mkChunkMeta doc 0 i docChunks.length := by
      rw [List.get_eq_getElem, List.getElem_map, List.getElem_enum]
    simp only [hget, List.length_map, List.enum_length]
    unfold mkChunkMeta
    refine ⟨?_, ?_, ?_, ?_, ?_, ?_⟩
    · intro k v hk
      rw [lookup_objSpread, hk]
    · intro hk
      rw [lookup_objSpread, hk]
      simp [lookup_cons']
      rfl
    · intro hk
      rw [lookup_objSpread, hk]
      simp [lookup_cons']
      rfl
    · intro hk
      rw [lookup_objSpread, hk]
      simp [lookup_cons']
    · intro hk
      rw [lookup_objSpread, hk]
      simp [lookup_cons']
    · intro hk
      rw [lookup_objSpread, hk]
      simp [lookup_cons']

/-- Witness for C3's amended theorem at a concrete document: the extra key
`"extra"` keeps the document's value and the unshadowed reserved key
`"chunkIndex"` gets the chunk-computed 0. -/
theorem processDocuments_metadata_precedence_witness :
    (([(⟨"hello".toList,
        mkChunkMeta ⟨some "d", some "T", some "hello", none, some "s",
          [("extra", .str "y")]⟩ 0 0 1⟩ : Chunk)].get
          ⟨0, Nat.zero_lt_one⟩).metadata.lookup "extra" = some (.str "y")) ∧
    (([(⟨"hello".toList,
        mkChunkMeta ⟨some "d", some "T", some "hello", none, some "s",
          [("extra", .str "y")]⟩ 0 0 1⟩ : Chunk)].get
          ⟨0, Nat.zero_lt_one⟩).metadata.lookup "chunkIndex" = some (.num 0)) :=
  have H := processDocuments_metadata_precedence ChunkerConfig.default
    ⟨some "d", some "T", some "hello", none, some "s", [("extra", .str "y")]⟩ 1
    [⟨"hello".toList,
      mkChunkMeta ⟨some "d", some "T", some "hello", none, some "s",
        [("extra", .str "y")]⟩ 0 0 1⟩]
    (by decide) 0 Nat.zero_lt_one
  ⟨H.1 "extra" (.str "y") (by decide), H.2.2.2.1 (by decide)⟩

/-! ## Claim C2 — `embedBatch` cardinality and zero-vector fallback

The fallback to per-text calls exists only for batches with more than one
member; a failing single-member batch re-throws, so `embedBatch` does not
always return a list at all. -/

theorem chunksOfGo_nil (n f : Nat) : chunksOfGo n f ([] : List α) = [] := by
  cases f <;> rfl

theorem chunksOfGo_congr (n : Nat) (hn : 0 < n) :
    ∀ f₁ : Nat, ∀ f₂ : Nat, ∀ l : List α, l.length ≤ f₁ → l.length ≤ f₂ →
      chunksOfGo n f₁ l = chunksOfGo n f₂ l := by
  intro f₁
  induction f₁ with
  | zero =>
    intro f₂ l h1 _h2
    have : l = [] := List.eq_nil_of_length_eq_zero (Nat.le_zero.mp h1)
    subst this
    simp [chunksOfGo_nil]
  | succ f₁ ih =>
    intro f₂ l h1 h2
    cases l with
    | nil => simp [chunksOfGo_nil]
    | cons x xs =>
      cases f₂ with
      | zero => exact absurd h2 (by simp)
      | succ f₂ =>
        show ((x :: xs).take n) :: chunksOfGo n f₁ ((x :: xs).drop n) =
          ((x :: xs).take n) :: chunksOfGo n f₂ ((x :: xs).drop n)
        have hdrop : ((x :: xs).drop n).length ≤ xs.length := by
          rw [List.length_drop]
          simp only [List.length_cons]
          omega
        have hx1 : ((x :: xs).drop n).length ≤ f₁ := le_trans hdrop (by
          simp only [List.length_cons] at h1; omega)
        have hx2 : ((x :: xs).drop n).length ≤ f₂ := le_trans hdrop (by
          simp only [List.length_cons] at h2; omega)
        rw [ih f₂ _ hx1 hx2]

theorem chunksOf_cons (n : Nat) (hn : 0 < n) (x : α) (xs : List α) :
    chunksOf n (x :: xs) = ((x :: xs).take n) :: chunksOf n ((x :: xs).drop n) := by
  show chunksOfGo n (xs.length + 1) (x :: xs) = _
  show ((x :: xs).take n) :: chunksOfGo n xs.length ((x :: xs).drop n) = _
  unfold chunksOf
  congr 1
  apply chunksOfGo_congr n hn
  · rw [List.length_drop]; simp only [List.length_cons]; omega
  · exact le_refl _

theorem chunksOf_flatten (n : Nat) (hn : 0 < n) :
    ∀ fuel : Nat, ∀ l : List α, l.length ≤ fuel → (chunksOf n l).flatten = l := by
  intro fuel
  induction fuel with
  | zero =>
    intro l h
    have : l = [] := List.eq_nil_of_length_eq_zero (Nat.le_zero.mp h)
    subst this
    rfl
  | succ fuel ih =>
    intro l h
    cases l with
    | nil => rfl
    | cons x xs =>
      rw [chunksOf_cons n hn, List.flatten_cons,
        ih _ (by rw [List.length_drop]; simp only [List.length_cons] at h ⊢; omega),
        List.take_append_drop]

theorem embedGo_nil (cfg : EmbedConfig) (p : EmbedProvider) (f : Nat) :
    embedGo cfg p f [] = .ok [] := by
  cases f <;> rfl

theorem embedGo_congr (cfg : EmbedConfig) (p : EmbedProvider) (hbs : 0 < cfg.batchSize) :
    ∀ f₁ : Nat, ∀ f₂ : Nat, ∀ l : List (List Char), l.length ≤ f₁ → l.length ≤ f₂ →
      embedGo cfg p f₁ l = embedGo cfg p f₂ l := by
  intro f₁
  induction f₁ with
  | zero =>
    intro f₂ l h1 _h2
    have : l = [] := List.eq_nil_of_length_eq_zero (Nat.le_zero.mp h1)
    subst this
    simp [embedGo_nil]
  | succ f₁ ih =>
    intro f₂ l h1 h2
    cases l with
    | nil => simp [embedGo_nil]
    | cons x xs =>
      cases f₂ with
      | zero => exact absurd h2 (by simp)
      | succ f₂ =>
        have hdrop : ((x :: xs).drop cfg.batchSize).length ≤ xs.length := by
          rw [List.length_drop]
          simp only [List.length_cons]
          omega
        have hx1 : ((x :: xs).drop cfg.batchSize).length ≤ f₁ := le_trans hdrop (by
          simp only [List.length_cons] at h1; omega)
        have hx2 : ((x :: xs).drop cfg.batchSize).length ≤ f₂ := le_trans hdrop (by
          simp only [List.length_cons] at h2; omega)
        simp only [embedGo]
        rw [ih f₂ _ hx1 hx2]

theorem embedGo_spec (cfg : EmbedConfig) (p : EmbedProvider) (hbs : 0 < cfg.batchSize) :
    ∀ fuel : Nat, ∀ l : List (List Char), l.length ≤ fuel →
      (∀ g ∈ chunksOf cfg.batchSize l, p.batchCall g = none → 1 < g.length) →
      embedGo cfg p l.length l =
        .ok (((chunksOf cfg.batchSize l).map (groupResult cfg p)).flatten) := by
  intro fuel
  induction fuel with
  | zero =>
    intro l h _hf
    have : l = [] := List.eq_nil_of_length_eq_zero (Nat.le_zero.mp h)
    subst this
    rfl
  | succ fuel ih =>
    intro l h hf
    cases l with
    | nil => rfl
    | cons x xs =>
      have hmem : (x :: xs).take cfg.batchSize ∈ chunksOf cfg.batchSize (x :: xs) := by
        rw [chunksOf_cons _ hbs]
        exact List.mem_cons_self _ _
      have hdlen : ((x :: xs).drop cfg.batchSize).length ≤ xs.length := by
        rw [List.length_drop]
        simp only [List.length_cons]
        omega
      have hrec : embedGo cfg p xs.length ((x :: xs).drop cfg.batchSize) =
          embedGo cfg p ((x :: xs).drop cfg.batchSize).length
            ((x :: xs).drop cfg.batchSize) :=
        embedGo_congr cfg p hbs _ _ _ hdlen le_rfl
      have hfd : ∀ g ∈ chunksOf cfg.batchSize ((x :: xs).drop cfg.batchSize),
          p.batchCall g = none → 1 < g.length := by
        intro g hg
        exact hf g (by rw [chunksOf_cons _ hbs]; exact List.mem_cons_of_mem _ hg)
      have ihd := ih ((x :: xs).drop cfg.batchSize)
        (le_trans hdlen (by simp only [List.length_cons] at h; omega)) hfd
      rw [chunksOf_cons _ hbs, List.map_cons, List.flatten_cons]
      show embedGo cfg p (xs.length + 1) (x :: xs) = _
      simp only [embedGo]
      cases hb : p.batchCall ((x :: xs).take cfg.batchSize) with
      | some es =>
        rw [hrec, ihd]
        unfold groupResult
        rw [hb]
        rfl
      | none =>
        rw [if_pos (hf _ hmem hb), hrec, ihd]
        unfold groupResult
        rw [hb]
        rfl

theorem specEmbed_go_length (cfg : EmbedConfig) (p : EmbedProvider) (hbs : 0 < cfg.batchSize)
    (hc : ∀ ts es, p.batchCall ts = some es → es.length = ts.length) :
    ∀ fuel : Nat, ∀ l : List (List Char), l.length ≤ fuel →
      (((chunksOf cfg.batchSize l).map (groupResult cfg p)).flatten).length = l.length := by
  intro fuel
  induction fuel with
  | zero =>
    intro l h
    have : l = [] := List.eq_nil_of_length_eq_zero (Nat.le_zero.mp h)
    subst this
    rfl
  | succ fuel ih =>
    intro l h
    cases l with
    | nil => rfl
    | cons x xs =>
      have hdlen : ((x :: xs).drop cfg.batchSize).length ≤ xs.length := by
        rw [List.length_drop]
        simp only [List.length_cons]
        omega
      rw [chunksOf_cons _ hbs, List.map_cons, List.flatten_cons, List.length_append,
        ih _ (le_trans hdlen (by simp only [List.length_cons] at h; omega))]
      have hgl : (groupResult cfg p ((x :: xs).take cfg.batchSize)).length =
          ((x :: xs).take cfg.batchSize).length := by
        unfold groupResult
        cases hb : p.batchCall ((x :: xs).take cfg.batchSize) with
        | some es => exact hc _ es hb
        | none => exact List.length_map _ _
      rw [hgl, List.length_take, List.length_drop]
      simp only [List.length_cons]
      omega

/-- C2, counterexample: with one input text and every provider call
failing, the failing batch has exactly one member, so `embedBatch` throws
instead of returning the claimed length-1 list of zero vectors. -/
theorem embedBatch_single_member_group_throws :
    embedBatch EmbedConfig.default ⟨fun _ => none, fun _ => none⟩ [['a']] =
      .error "Failed to generate batch embeddings" := by
  rfl

/-- C2, amended: provided every batch whose group call fails has more than
one member (when a single-member batch fails the error propagates
instead), `embedBatch` succeeds with one embedding per input text, in
order (`specEmbed` lists the per-batch results in batch order); in
particular, when every provider call fails, every entry is the zero vector
of the configured dimension in the position of its input text.
`hc` is the provider's boundary contract (one vector per input of a
successful batch call); `batchSize` is positive because the constructor's
`config.batchSize || 20` replaces a falsy 0. -/
theorem embedBatch_c2 (cfg : EmbedConfig) (p : EmbedProvider)
    (texts : List (List Char)) (hbs : 0 < cfg.batchSize)
    (hc : ∀ ts es, p.batchCall ts = some es → es.length = ts.length)
    (hf : ∀ g ∈ chunksOf cfg.batchSize (texts.map (truncateText cfg)),
      p.batchCall g = none → 1 < g.length) :
    embedBatch cfg p texts = .ok (specEmbed cfg p texts) ∧
    (specEmbed cfg p texts).length = texts.length ∧
    ((∀ ts, p.batchCall ts = none) → (∀ t, p.singleCall t = none) →
      specEmbed cfg p texts = texts.map (fun _ => zeroVec cfg.dimension)) := by
  refine ⟨?_, ?_, ?_⟩
  · unfold embedBatch specEmbed
    exact embedGo_spec cfg p hbs (texts.map (truncateText cfg)).length _ le_rfl hf
  · unfold specEmbed
    rw [specEmbed_go_length cfg p hbs hc (texts.map (truncateText cfg)).length _ le_rfl]
    exact List.length_map _ _
  · intro hab has
    unfold specEmbed
    have hg : ∀ g, groupResult cfg p g = g.map (fun _ => zeroVec cfg.dimension) := by
      intro g
      unfold groupResult
      rw [hab]
      refine List.map_congr_left ?_
      intro t _
      rw [has]
    calc ((chunksOf cfg.batchSize (texts.map (truncateText cfg))).map
            (groupResult cfg p)).flatten
        = ((chunksOf cfg.batchSize (texts.map (truncateText cfg))).map
            (List.map (fun _ => zeroVec cfg.dimension))).flatten := by
          rw [List.map_congr_left (fun g _ => hg g)]
      _ = ((chunksOf cfg.batchSize (texts.map (truncateText cfg))).flatten).map
            (fun _ => zeroVec cfg.dimension) :=
          (List.map_flatten _ _).symm
      _ = ((texts.map (truncateText cfg)).map (fun _ => zeroVec cfg.dimension)) := by
          rw [chunksOf_flatten cfg.batchSize hbs (texts.map (truncateText cfg)).length _ le_rfl]
      _ = texts.map (fun _ => zeroVec cfg.dimension) := by
          rw [List.map_map]
          rfl

/-- Witness for C2's amended theorem: two texts, every provider call
failing — the single batch has two members, so both entries come back as
zero vectors of the configured dimension 768. -/
theorem embedBatch_c2_witness :
    embedBatch EmbedConfig.default ⟨fun _ => none, fun _ => none⟩ [['a'], ['b']] =
      .ok [zeroVec 768, zeroVec 768] ∧
    (specEmbed EmbedConfig.default ⟨fun _ => none, fun _ => none⟩
      [['a'], ['b']]).length = 2 :=
  have H := embedBatch_c2 EmbedConfig.default ⟨fun _ => none, fun _ => none⟩
    [['a'], ['b']] (by decide) (fun _ts _es h => Option.noConfusion h) (by decide)
  ⟨by rw [H.1]; rfl, H.2.1⟩

/-! ## Claim C5 — `addDocuments` validation -/

/-- C5, counterexample: a record whose vector has length 3 — differing
from the configured dimension (768 by default, and `addDocuments` consults
no dimension at all) — passes the adapter's validation and is handed to
the provider as-is. -/
theorem addDocuments_wrong_dimension_accepted :
    addDocuments [] [⟨"t", []⟩] (some [[1, 2, 3]]) 0 =
      .ok [⟨"0-0", [1, 2, 3], [("text", .str "t")]⟩] := by
  rfl

/-- C5, amended: the only validation `addDocuments` performs at the
adapter boundary is the `documents.length !== embeddings.length` count
check (plus the implicit failure when the `embeddings` argument is
missing); when the counts match, the upsert succeeds for vectors of any
length, each record keeping its supplied vector verbatim — dimension
mismatches are left to the external vector database. -/
theorem addDocuments_validates_only_count (store : List QPoint)
    (documents : List VSDoc) (es : List Vec) (now : Nat)
    (h : documents.length = es.length) :
    addDocuments store documents (some es) now =
      .ok (store ++ mkPoints documents es now) ∧
    ∀ i, i < documents.length →
      ((mkPoints documents es now).getD i ⟨"", [], []⟩).vector = es.getD i [] := by
  constructor
  · unfold addDocuments
    simp only [h, ne_eq, not_true_eq_false, if_false]
  · intro i hi
    rw [List.getD_eq_getElem _ _ (by unfold mkPoints; simp; omega)]
    unfold mkPoints
    rw [List.getElem_map, List.getElem_enum]

/-- Witness for C5's amended theorem: one document with a 3-dimensional
vector upserts fine and stores that vector. -/
theorem addDocuments_validates_only_count_witness :
    addDocuments [] [⟨"t", []⟩] (some [[5, 6, 7]]) 1 =
      .ok ([] ++ mkPoints [⟨"t", []⟩] [[5, 6, 7]] 1) ∧
    ((mkPoints [⟨"t", []⟩] [[5, 6, 7]] 1).getD 0 ⟨"", [], []⟩).vector = [5, 6, 7] :=
  have H := addDocuments_validates_only_count [] [⟨"t", []⟩] [[5, 6, 7]] 1 rfl
  ⟨H.1, H.2 0 (by decide)⟩

/-! ## Claim C4 — `similaritySearch` ordering, limit, threshold -/

/-- C4, counterexample: `RAGService.query` passes its `threshold` (here
the default 0.7) as a third argument that `similaritySearch`'s
two-parameter signature drops, so a stored document scoring 1/2 — below
the threshold — is still returned. -/
theorem ragQuery_ignores_threshold_counterexample :
    ragQuery EmbedConfig.default ⟨fun _ => none, fun _ => some [1]⟩ ⟨fun _ _ => 1/2⟩
        [⟨"p1", [1], [("text", .str "hello")]⟩] "q".toList 5 (7/10) =
      .ok [⟨some (.str "hello"), none, none, none, none, 1/2⟩] ∧
    ((1 : ℚ)/2) < 7/10 := by
  constructor
  · rfl
  · norm_num

/-- C4, amended: the similarity search returns at most `limit` documents
ordered by descending similarity score, but the provided `scoreThreshold`
is ignored — `RAGService.query`'s result is the same whatever threshold is
supplied, and documents scoring below it may be returned. -/
theorem similaritySearch_c4 (qm : QdrantModel) (store : List QPoint)
    (queryEmbedding : Vec) (limit : Nat) :
    (similaritySearch qm store queryEmbedding limit).length ≤ limit ∧
    List.Sorted (fun (a b : RetrievedDoc) => b.score ≤ a.score)
      (similaritySearch qm store queryEmbedding limit) ∧
    (∀ ecfg p query topK t₁ t₂,
      ragQuery ecfg p qm store query topK t₁ = ragQuery ecfg p qm store query topK t₂) := by
  refine ⟨?_, ?_, ?_⟩
  · unfold similaritySearch qdrantSearch
    rw [List.length_map, List.length_map]
    exact List.length_take_le _ _
  · unfold similaritySearch qdrantSearch
    haveI htot : IsTotal QPoint (scoreRel qm queryEmbedding) :=
      ⟨fun a b => le_total (qm.score queryEmbedding b.vector) (qm.score queryEmbedding a.vector)⟩
    haveI htrans : IsTrans QPoint (scoreRel qm queryEmbedding) :=
      ⟨fun _a _b _c hab hbc => le_trans hbc hab⟩
    have hsorted : List.Sorted (scoreRel qm queryEmbedding)
        (store.insertionSort (scoreRel qm queryEmbedding)) :=
      List.sorted_insertionSort _ _
    have htake : List.Sorted (scoreRel qm queryEmbedding)
        ((store.insertionSort (scoreRel qm queryEmbedding)).take limit) :=
      List.Pairwise.sublist (List.take_sublist _ _) hsorted
    rw [List.map_map]
    unfold List.Sorted at htake ⊢
    rw [List.pairwise_map]
    exact htake.imp (fun hab => hab)
  · intro ecfg p query topK t₁ t₂
    rfl

/-! ## Claim C1 — ingestion

`RAGService.ingestArticles` deviates from the spec in the two ways noted
on its definition (hard-coded embedding input; single-argument
`addDocuments` call whose `embeddings` parameter is therefore
`undefined`), and consequently never succeeds on any input. -/

/-- C1: for every configuration, provider behaviour, article list and
store, an ingestion run that terminates produces an error — the zipped
(chunk, embedding) upsert the claim describes never happens, because
`addDocuments` is invoked without its `embeddings` argument (and the
embeddings that were computed came from the fixed hard-coded string, not
from the chunks' texts). -/
theorem ingestArticles_never_succeeds (ecfg : EmbedConfig) (p : EmbedProvider)
    (store : List QPoint) (articles : List JsDoc) (now : Nat) (fuel : Nat)
    (r : Except String (List QPoint))
    (h : ingestArticles ecfg p store articles now fuel = some r) :
    ∃ e, r = .error e := by
  unfold ingestArticles at h
  simp only [addDocuments] at h
  split at h
  · cases h
  · split at h
    · exact ⟨_, (Option.some.inj h).symm⟩
    · exact ⟨_, (Option.some.inj h).symm⟩

/-- Witness for C1's theorem: ingesting the empty article list fails with
the wrapped undefined-`length` error. -/
theorem ingestArticles_never_succeeds_witness :
    ingestArticles EmbedConfig.default ⟨fun _ => none, fun _ => none⟩ [] [] 0 1 =
      some (.error "Failed to ingest articles: Qdrant document insertion failed: Cannot read properties of undefined (reading \x27length\x27)") ∧
    ∃ e, (Except.error "Failed to ingest articles: Qdrant document insertion failed: Cannot read properties of undefined (reading \x27length\x27)" :
        Except String (List QPoint)) = .error e :=
  ⟨rfl, ingestArticles_never_succeeds EmbedConfig.default ⟨fun _ => none, fun _ => none⟩
    [] [] 0 1 _ rfl⟩

/-! ## Cache-state lemmas for the controller claims -/

theorem getChatSession_store_self (sid : String) (h : List ChatMessage) (st : CacheState) :
    getChatSession sid (storeChatSession sid h st) = some h :=
  lookup_objSet_self st.sessions sid h

theorem getChatSession_cache (sid q : String) (r : CachedResult) (st : CacheState) :
    getChatSession sid (cacheQueryResult q r st) = getChatSession sid st := rfl

theorem getCachedQueryResult_store (q sid : String) (h : List ChatMessage) (st : CacheState) :
    getCachedQueryResult q (storeChatSession sid h st) = getCachedQueryResult q st := rfl

theorem getCachedQueryResult_cache_self (q : String) (r : CachedResult) (st : CacheState) :
    getCachedQueryResult q (cacheQueryResult q r st) = some r :=
  lookup_objSet_self st.queries q r

/-! ## Claim C7 — each completed turn appends exactly one user and one
assistant message -/

/-- C7: whenever `sendMessage` reaches its 200 outcome (cache hit or
miss), and whenever `streamMessage`'s event sequence ends in the terminal
`end` event, the stored history for the session is the previous history
(empty when absent) extended by exactly the turn's user message followed by
one assistant message. -/
theorem turn_appends_user_and_assistant :
    (∀ env sid msg st bot c st' tr,
      sendMessage env sid msg st = (.ok bot c, st', tr) →
      bot.role = .assistant ∧
      getChatSession sid st' =
        some (((getChatSession sid st).getD []) ++ [⟨.user, msg, none, env.now⟩, bot])) ∧
    (∀ env sid msg st evs st' tr,
      streamMessage env sid msg st = (.events evs, st', tr) →
      evs.getLast? = some .done →
      ∃ bot, bot.role = .assistant ∧
        getChatSession sid st' =
          some (((getChatSession sid st).getD []) ++ [⟨.user, msg, none, env.now⟩, bot])) := by
  constructor
  · intro env sid msg st bot c st' tr h
    unfold sendMessage at h
    split at h
    · simp at h
    · dsimp only at h
      split at h
      · rename_i cachedResult hcache
        simp only [Prod.mk.injEq, SendOutcome.ok.injEq] at h
        obtain ⟨⟨hbot, _hc⟩, hst', _htr⟩ := h
        subst hbot
        subst hst'
        refine ⟨rfl, ?_⟩
        rw [getChatSession_store_self, List.append_assoc]
        rfl
      · split at h
        · simp at h
        · split at h
          · simp at h
          · split at h
            · simp at h
            · rename_i qe hqe docs hdocs resp hresp
              simp only [Prod.mk.injEq, SendOutcome.ok.injEq] at h
              obtain ⟨⟨hbot, _hc⟩, hst', _htr⟩ := h
              subst hbot
              subst hst'
              refine ⟨rfl, ?_⟩
              rw [getChatSession_cache, getChatSession_store_self, List.append_assoc]
              rfl
  · intro env sid msg st evs st' tr h hlast
    unfold streamMessage at h
    split at h
    · simp at h
    · dsimp only at h
      split at h
      · simp only [Prod.mk.injEq, StreamOutcome.events.injEq] at h
        obtain ⟨hevs, _, _⟩ := h
        subst hevs
        simp [List.getLast?] at hlast
      · split at h
        · simp only [Prod.mk.injEq, StreamOutcome.events.injEq] at h
          obtain ⟨hevs, _, _⟩ := h
          subst hevs
          simp [List.getLast?] at hlast
        · split at h
          · simp only [Prod.mk.injEq, StreamOutcome.events.injEq] at h
            obtain ⟨hevs, _, _⟩ := h
            subst hevs
            simp [List.getLast?] at hlast
          · rename_i x1 qe hqe x2 docs hdocs x3 fragments hfrag
            simp only [Prod.mk.injEq, StreamOutcome.events.injEq] at h
            obtain ⟨_hevs, hst', _htr⟩ := h
            subst hst'
            refine ⟨⟨.assistant,
              String.join (List.filter (fun c => decide (c ≠ "")) fragments),
              some (List.map mkSourceRef docs), env.now⟩, rfl, ?_⟩
            rw [getChatSession_cache, getChatSession_store_self, List.append_assoc]
            rfl

/-- Witness for C7 at a concrete environment (all providers succeed; two
stream fragments): both the plain and the streaming turn leave the fresh
session with exactly [user, assistant]. -/
theorem turn_appends_user_and_assistant_witness :
    ((⟨.assistant, "ans", some [], "t0"⟩ : ChatMessage).role = .assistant ∧
      getChatSession "s"
        (sendMessage ⟨fun _ => some [1], fun _ _ => some [], fun _ _ _ => some "ans",
          fun _ _ _ => some ["a", "b"], "t0"⟩ "s" "hi" ⟨[], []⟩).2.1 =
        some (((getChatSession "s" (⟨[], []⟩ : CacheState)).getD []) ++
          [⟨.user, "hi", none, "t0"⟩, ⟨.assistant, "ans", some [], "t0"⟩])) ∧
    (∃ bot, bot.role = .assistant ∧
      getChatSession "s"
        (streamMessage ⟨fun _ => some [1], fun _ _ => some [], fun _ _ _ => some "ans",
          fun _ _ _ => some ["a", "b"], "t0"⟩ "s" "hi" ⟨[], []⟩).2.1 =
        some (((getChatSession "s" (⟨[], []⟩ : CacheState)).getD []) ++
          [⟨.user, "hi", none, "t0"⟩, bot])) :=
  ⟨turn_appends_user_and_assistant.1
      ⟨fun _ => some [1], fun _ _ => some [], fun _ _ _ => some "ans",
        fun _ _ _ => some ["a", "b"], "t0"⟩ "s" "hi" ⟨[], []⟩
      ⟨.assistant, "ans", some [], "t0"⟩ false _ _ rfl,
   turn_appends_user_and_assistant.2
      ⟨fun _ => some [1], fun _ _ => some [], fun _ _ _ => some "ans",
        fun _ _ _ => some ["a", "b"], "t0"⟩ "s" "hi" ⟨[], []⟩
      [.start, .sources [], .chunk "a", .chunk "b", .done] _ _ rfl rfl⟩

/-! ## Claim C8 — repeated query hits the cache -/

/-- C8: if a `sendMessage` turn completed on the non-cached path (which is
exactly when it stores its result in the query cache), then an immediately
following `sendMessage` with the identical query string — under any
provider environment at all — returns the cached answer marked
`cached: true` with an empty provider-call trace: the generation,
embedding and search providers are never invoked.  (TTL expiry is
modelled as key absence, so the cached entry being present is built into
the state produced by the first call.) -/
theorem repeat_query_returns_cached (env env₂ : ChatEnv) (sid msg : String)
    (st : CacheState) (bot : ChatMessage) (st₁ : CacheState) (tr : List ProviderCall)
    (h : sendMessage env sid msg st = (.ok bot false, st₁, tr)) :
    ∃ bot₂ st₂, sendMessage env₂ sid msg st₁ = (.ok bot₂ true, st₂, []) ∧
      bot₂.content = bot.content ∧ bot₂.sources = bot.sources := by
  unfold sendMessage at h
  split at h
  · simp at h
  · rename_i hcond
    dsimp only at h
    split at h
    · simp at h
    · split at h
      · simp at h
      · split at h
        · simp at h
        · split at h
          · simp at h
          · rename_i x1 qe hqe x2 docs hdocs x3 resp hresp
            simp only [Prod.mk.injEq, SendOutcome.ok.injEq] at h
            obtain ⟨⟨hbot, _⟩, hst₁, _⟩ := h
            subst hbot
            subst hst₁
            unfold sendMessage
            rw [if_neg hcond]
            dsimp only
            rw [getCachedQueryResult_cache_self]
            exact ⟨_, _, rfl, rfl, rfl⟩

/-- Witness for C8: a concrete first call (miss path) followed by the
repeat call. -/
theorem repeat_query_returns_cached_witness :
    ∃ bot₂ st₂,
      sendMessage ⟨fun _ => some [1], fun _ _ => some [], fun _ _ _ => some "ans",
          fun _ _ _ => some ["a", "b"], "t0"⟩ "s" "hi"
        (sendMessage ⟨fun _ => some [1], fun _ _ => some [], fun _ _ _ => some "ans",
          fun _ _ _ => some ["a", "b"], "t0"⟩ "s" "hi" ⟨[], []⟩).2.1 =
        (.ok bot₂ true, st₂, []) ∧
      bot₂.content = (⟨.assistant, "ans", some [], "t0"⟩ : ChatMessage).content ∧
      bot₂.sources = (⟨.assistant, "ans", some [], "t0"⟩ : ChatMessage).sources :=
  repeat_query_returns_cached
    ⟨fun _ => some [1], fun _ _ => some [], fun _ _ _ => some "ans",
      fun _ _ _ => some ["a", "b"], "t0"⟩
    ⟨fun _ => some [1], fun _ _ => some [], fun _ _ _ => some "ans",
      fun _ _ _ => some ["a", "b"], "t0"⟩ "s" "hi" ⟨[], []⟩
    ⟨.assistant, "ans", some [], "t0"⟩ _ _ rfl

/-! ## Claim C9 — clearing a session preserves the identifier -/

/-- C9: after `clearSession(id)` on a session that has messages, a
subsequent `getSessionHistory(id)` succeeds with the empty history rather
than reporting not-found — the stored JSON `"[]"` is truthy, so the
controller's `if (!history)` 404 guard does not fire. -/
theorem clearSession_then_getHistory (sid : String) (st : CacheState)
    (msgs : List ChatMessage) (hsid : sid ≠ "")
    (_hmsgs : getChatSession sid st = some msgs) :
    (clearSession sid st).1 = .cleared ∧
    getSessionHistory sid (clearSession sid st).2 = .ok [] := by
  unfold clearSession
  rw [if_neg hsid]
  refine ⟨rfl, ?_⟩
  unfold getSessionHistory
  rw [if_neg hsid, getChatSession_store_self]

/-- Witness for C9 at a one-message session. -/
theorem clearSession_then_getHistory_witness :
    (clearSession "s" ⟨[("s", [⟨.user, "hi", none, "t"⟩])], []⟩).1 = .cleared ∧
    getSessionHistory "s" (clearSession "s" ⟨[("s", [⟨.user, "hi", none, "t"⟩])], []⟩).2 =
      .ok [] :=
  clearSession_then_getHistory "s" ⟨[("s", [⟨.user, "hi", none, "t"⟩])], []⟩
    [⟨.user, "hi", none, "t"⟩] (by decide) (by rfl)

/-! ## Claim C10 — `sendMessage` on an unknown session -/

/-- C10: `sendMessage` with a sessionId for which no session is stored
(never created, or expired — modelled as key absence) does not produce a
not-found outcome (its outcome type has none): the
`(await getChatSession(sessionId)) || []` fallback treats the history as
empty, the message is processed normally (on either cache path), and the
fresh history [user, assistant] is stored under that sessionId — while
`getSessionHistory` reports not-found for the very same sessionId and
state. -/
theorem sendMessage_unknown_session (env : ChatEnv) (sid msg : String) (st : CacheState)
    (hsid : sid ≠ "") (hmsg : msg ≠ "")
    (habsent : getChatSession sid st = none)
    (qe : Vec) (docs : List RetrievedDoc) (resp : String)
    (hqe : env.embedQuery msg = some qe)
    (hdocs : env.search qe 5 = some docs)
    (hresp : env.generate msg docs [⟨.user, msg, none, env.now⟩] = some resp) :
    ∃ bot c st' tr, sendMessage env sid msg st = (.ok bot c, st', tr) ∧
      bot.role = .assistant ∧
      getChatSession sid st' = some [⟨.user, msg, none, env.now⟩, bot] ∧
      getSessionHistory sid st = .notFound := by
  have hnotfound : getSessionHistory sid st = .notFound := by
    unfold getSessionHistory
    rw [if_neg hsid, habsent]
  unfold sendMessage
  rw [if_neg (by simp [hsid, hmsg])]
  dsimp only
  simp only [habsent, Option.getD_none, List.nil_append]
  cases hcache : getCachedQueryResult msg st with
  | some cr =>
    refine ⟨_, _, _, _, rfl, rfl, ?_, hnotfound⟩
    rw [getChatSession_store_self]
    rfl
  | none =>
    dsimp only
    rw [hqe]
    dsimp only
    rw [hdocs]
    dsimp only
    rw [hresp]
    refine ⟨_, _, _, _, rfl, rfl, ?_, hnotfound⟩
    rw [getChatSession_cache, getChatSession_store_self]
    rfl

/-- Witness for C10 on the empty cache state. -/
theorem sendMessage_unknown_session_witness :
    ∃ bot c st' tr,
      sendMessage ⟨fun _ => some [1], fun _ _ => some [], fun _ _ _ => some "ans",
          fun _ _ _ => some ["a", "b"], "t0"⟩ "s" "hi" ⟨[], []⟩ = (.ok bot c, st', tr) ∧
      bot.role = .assistant ∧
      getChatSession "s" st' = some [⟨.user, "hi", none, "t0"⟩, bot] ∧
      getSessionHistory "s" (⟨[], []⟩ : CacheState) = .notFound :=
  sendMessage_unknown_session
    ⟨fun _ => some [1], fun _ _ => some [], fun _ _ _ => some "ans",
      fun _ _ _ => some ["a", "b"], "t0"⟩ "s" "hi" ⟨[], []⟩
    (by decide) (by decide) rfl [1] [] "ans" rfl rfl rfl

end RAGNews
